import Mathlib

/-!
Verification development for the NeuroKit `signal_timefrequency.py` module.

The Python source is shallowly embedded over exact rationals:
every float is a rational, so ℚ models the numeric values, and a small
rational-complex structure `CQ` models `numpy` complex arrays.  External
collaborators (`np.fft.fft`, `np.fft.ifft`, `scipy.signal.hilbert`,
`signal_detrend`, `scipy.signal.hamming`, `scipy.signal.gaussian`,
`scipy.signal.check_COLA`, `scipy.signal.spectrogram`, `scipy.signal.cwt`)
are treated as black boxes per the module's documented contracts and are
passed in as explicit function parameters, except where their documented
output shape is itself load-bearing (the spectrogram's one-sided frequency
axis), in which case it is embedded directly.
-/

namespace NK

/-- Complex numbers with rational components, modelling numpy complex values
(floats are dyadic rationals, so ℚ is an exact superset of the float grid). -/
structure CQ where
  re : ℚ
  im : ℚ
deriving DecidableEq

/-- The complex zero. -/
def CQ.zero : CQ := ⟨0, 0⟩

/-- Componentwise addition. -/
def CQ.add (x y : CQ) : CQ := ⟨x.re + y.re, x.im + y.im⟩

/-- Complex multiplication. -/
def CQ.mul (x y : CQ) : CQ := ⟨x.re * y.re - x.im * y.im, x.re * y.im + x.im * y.re⟩

/-- Complex conjugate (`np.conjugate`). -/
def CQ.conj (x : CQ) : CQ := ⟨x.re, -x.im⟩

/-- Scaling by a rational (multiplication by a real window coefficient). -/
def CQ.smul (q : ℚ) (x : CQ) : CQ := ⟨q * x.re, q * x.im⟩

/-- Embedding of a real sample into `CQ`. -/
def CQ.ofRat (q : ℚ) : CQ := ⟨q, 0⟩

/-- Sum of a list of complex values (`np.sum`). -/
def CQ.sum (l : List CQ) : CQ := l.foldr CQ.add CQ.zero

/-- Squared magnitude of a complex value. -/
def CQ.normSq (x : CQ) : ℚ := x.re * x.re + x.im * x.im

/-- Python exceptions that the embedded code can raise. -/
inductive PyErr where
  /-- `TypeError`, e.g. `len()` applied to an `int`. -/
  | typeError
  /-- `ValueError` with its message. -/
  | valueError (msg : String)
  /-- `NameError`/`UnboundLocalError` from reading a never-assigned local. -/
  | nameError
deriving DecidableEq

/-- Python values a caller can pass as a window-length argument: a scalar
integer, or a 1-D numpy array of integers (`len` works on the array but
raises `TypeError` on the scalar; `int(...)` works only on a 1-element
array or on the scalar). -/
inductive PyObj where
  | int (n : ℤ)
  | arr (xs : List ℕ)
deriving DecidableEq

/-- Python `int()` truncation toward zero of an exact rational. -/
def pyInt (q : ℚ) : ℤ := Int.tdiv q.num q.den

/-- Read `xs[i]` with Python/numpy index semantics: a negative index counts
from the end.  An index that is still out of range (numpy would raise
`IndexError`) returns the default; every claim that depends on indices
being in range states that fact separately. -/
def pyGet {α : Type} (xs : List α) (dflt : α) (i : ℤ) : α :=
  if 0 ≤ i then xs.getD i.toNat dflt
  else xs.getD ((xs.length : ℤ) + i).toNat dflt

/-- Write `xs[i] = v` with Python/numpy index semantics: a negative index
counts from the end; an out-of-range index (numpy `IndexError`) leaves the
list unchanged here, and in-boundedness is stated separately (claim C1). -/
def pySet {α : Type} (xs : List α) (i : ℤ) (v : α) : List α :=
  if 0 ≤ i then xs.set i.toNat v
  else xs.set ((xs.length : ℤ) + i).toNat v

/-- Integer interval `np.arange(start=lo, stop=hi)`: `lo, lo+1, …, hi-1`. -/
def intRange (lo hi : ℤ) : List ℤ :=
  (List.range (hi - lo).toNat).map fun (k : ℕ) => lo + (k : ℤ)

/-- Map over a list with the position index, starting the count at `i`. -/
def mapFrom {α : Type} (f : ℕ → α → α) : ℕ → List α → List α
  | _, [] => []
  | i, x :: xs => f i x :: mapFrom f (i + 1) xs

/-- Map over a list with the position index (models writing to a slice of a
numpy array selected by an index condition). -/
def mapWithIdx {α : Type} (f : ℕ → α → α) (xs : List α) : List α :=
  mapFrom f 0 xs

/-- Lines 230-244: validate a window-length argument.  `none` derives the
default `⌊N / divisor⌋`, incremented by one if even.  An explicit argument
goes through `len(arg) % 2 == 0`: Python's `len` raises `TypeError` on a
scalar, and on an array returns the array length, raising the odd-length
`ValueError` when that is even.  A surviving explicit argument is returned
unconverted (the `int(...)` conversion happens later, at window build). -/
def validateWindowLength (arg : Option PyObj) (N divisor : ℕ) (msg : String) :
    Except PyErr (ℕ ⊕ List ℕ) :=
  match arg with
  | none =>
      let l := N / divisor
      Except.ok (Sum.inl (if l % 2 = 0 then l + 1 else l))
  | some (PyObj.int _) => Except.error PyErr.typeError
  | some (PyObj.arr xs) =>
      if xs.length % 2 = 0 then Except.error (PyErr.valueError msg)
      else Except.ok (Sum.inr xs)

/-- Line 247-248: `int(length)` applied to the validated window-length value;
succeeds on the derived default or a 1-element array, raises `TypeError`
otherwise. -/
def pyToNat : ℕ ⊕ List ℕ → Except PyErr ℕ
  | Sum.inl n => Except.ok n
  | Sum.inr [x] => Except.ok x
  | Sum.inr _ => Except.error PyErr.typeError

/-- Validation composed with the `int(...)` conversion; for `none` this is
the default odd-length derivation of lines 230-244. -/
def resolveWindowLength (arg : Option PyObj) (N divisor : ℕ) (msg : String) :
    Except PyErr ℕ :=
  match validateWindowLength arg N divisor msg with
  | Except.ok v => pyToNat v
  | Except.error e => Except.error e

/-- Lines 214-227 of the source, step by step: zero-pad the signal to length
2N, forward transform, double the spectrum over the slice `[1 : N-1]`
(indices 1 … N-2), zero the spectrum from index N on, inverse transform,
zero the tail of the result from index N on, detrend, then take
`scipy.signal.hilbert`.  The transform pair, `signal_detrend` (repository
code outside this excerpt) and the Hilbert construction are external
collaborators passed as parameters. -/
def analytic_signal_code (fft ifft detrend hilbert : List CQ → List CQ)
    (signal : List ℚ) : List CQ :=
  let N := signal.length
  let signal_padded := signal.map CQ.ofRat ++ List.replicate N CQ.zero
  let signal_fft := fft signal_padded
  let doubled :=
    mapWithIdx (fun k x => if 1 ≤ k ∧ k < N - 1 then CQ.smul 2 x else x) signal_fft
  let onesided := mapWithIdx (fun k x => if N ≤ k then CQ.zero else x) doubled
  let signal_ifft := ifft onesided
  let truncated := mapWithIdx (fun k x => if N ≤ k then CQ.zero else x) signal_ifft
  hilbert (detrend truncated)

/-- Transcription of the specification's description of the analytic-signal
constructor (spec §4.1): a single pass builds the one-sided spectrum —
entries at and beyond index N become zero, entries in `[1, N-1)` are
doubled, the rest are kept — followed by the inverse transform, tail
zeroing beyond N, detrending, and the Hilbert construction. -/
def analytic_signal_spec (fft ifft detrend hilbert : List CQ → List CQ)
    (signal : List ℚ) : List CQ :=
  let N := signal.length
  let padded := signal.map CQ.ofRat ++ List.replicate N CQ.zero
  let spectrum :=
    mapWithIdx (fun k x =>
      if N ≤ k then CQ.zero else if 1 ≤ k ∧ k < N - 1 then CQ.smul 2 x else x)
      (fft padded)
  let inv := ifft spectrum
  let tail0 := mapWithIdx (fun k x => if N ≤ k then CQ.zero else x) inv
  hilbert (detrend tail0)

/-- Error message of line 132. -/
def colaMsg : String := "The Constant OverLap Add (COLA) constraint is not met"

/-- Error message of line 236. -/
def freqOddMsg : String := "The length of frequency smoothing window must be odd."

/-- Error message of line 244. -/
def timeOddMsg : String := "The length of time smoothing window must be odd."

/-- Line 94: `int(window * sampling_rate)`. -/
def nperseg_window (window : ℚ) (sampling_rate : ℕ) : ℤ :=
  pyInt (window * sampling_rate)

/-- Line 97: `int((2 / min_frequency) * sampling_rate)`. -/
def nperseg_default (min_frequency : ℚ) (sampling_rate : ℕ) : ℤ :=
  pyInt (2 / min_frequency * sampling_rate)

/-- Frequency axis returned by `scipy.signal.spectrogram` with
`nfft=None` and a real input: the documented one-sided axis
`k * fs / M` for `k = 0 … M/2`, where `M` is the segment length actually
used (scipy clips `nperseg` to the signal length when it is larger). -/
def spectrogramFreqs (fs M : ℕ) : List ℚ :=
  (List.range (M / 2 + 1)).map fun (k : ℕ) => (k : ℚ) * fs / M

/-- Model of `np.linspace a b n`: `n` evenly spaced points from `a` to `b`
inclusive. -/
def linspace (a b : ℚ) (n : ℕ) : List ℚ :=
  (List.range n).map fun (k : ℕ) => a + (b - a) * (k : ℚ) / ((n : ℚ) - 1)

/-- Lines 125-169, `short_term_ft` without the plotting block: when an
overlap is supplied, check the COLA condition for the Hann window at
`nperseg` and raise `ValueError` on failure before anything else; then
delegate to the spectrogram primitive.  `colaCheck` models
`scipy.signal.check_COLA` and `spectro` models the times/matrix half of
`scipy.signal.spectrogram`; the frequency axis follows the documented
spectrogram contract.  `min_frequency` and `max_frequency` are used only
in the plotting block and so do not enter the numeric result. -/
def short_term_ft (colaCheck : ℕ → ℤ → Bool)
    (spectro : List ℚ → ℕ → ℕ → Option ℤ → List ℚ × List (List ℚ))
    (signal : List ℚ) (sampling_rate : ℕ) (min_frequency max_frequency : ℚ)
    (overlap : Option ℤ) (nperseg : ℕ) :
    Except PyErr (List ℚ × List ℚ × List (List ℚ)) :=
  let result :=
    (spectrogramFreqs sampling_rate (min nperseg signal.length),
     (spectro signal sampling_rate nperseg overlap).1,
     (spectro signal sampling_rate nperseg overlap).2)
  match overlap with
  | some o =>
      if colaCheck nperseg o then Except.ok result
      else Except.error (PyErr.valueError colaMsg)
  | none => Except.ok result

/-- Lines 330-371, `continuous_wt` without the plotting block: `nfreqbin`
defaults to `sampling_rate // 2`, the frequency axis is
`np.linspace(min_frequency, max_frequency, nfreqbin)`, the time axis is
`np.arange(len(signal)) / sampling_rate`.  The Morlet widths
`6 * sampling_rate / (2 * freq * π)` involve π and are folded into the
abstract `scipy.signal.cwt` collaborator `cwtPrim` together with the
transform itself. -/
def continuous_wt (cwtPrim : List ℚ → List ℚ → ℕ → List (List ℚ))
    (signal : List ℚ) (sampling_rate : ℕ) (min_frequency max_frequency : ℚ)
    (nfreqbin : Option ℕ) : List ℚ × List ℚ × List (List ℚ) :=
  let nfb := nfreqbin.getD (sampling_rate / 2)
  let freq := linspace min_frequency max_frequency nfb
  let time := (List.range signal.length).map fun (i : ℕ) => (i : ℚ) / sampling_rate
  (freq, time, cwtPrim signal freq sampling_rate)

/-- Model of Python `str.lower()` (ASCII method names only). -/
def pyLower (s : String) : String := String.mk (s.data.map Char.toLower)

/-- Lines 9-118, `signal_timefrequency`: sanitize a zero minimum frequency
to 0.04 Hz and an unspecified (infinite, modelled as `none`) maximum
frequency to the Nyquist `sampling_rate // 2`; for `"stft"` pick the
segment length from the explicit window duration or the
`2 / min_frequency` default and delegate to `short_term_ft`; for
`"cwt"`/`"wavelet"` delegate to `continuous_wt`, passing no `nfreqbin`.
Any other method leaves `frequency` unassigned, so the final `return`
raises `UnboundLocalError`, modelled as `PyErr.nameError`. -/
def signal_timefrequency (colaCheck : ℕ → ℤ → Bool)
    (spectro : List ℚ → ℕ → ℕ → Option ℤ → List ℚ × List (List ℚ))
    (cwtPrim : List ℚ → List ℚ → ℕ → List (List ℚ))
    (signal : List ℚ) (sampling_rate : ℕ) (min_frequency : ℚ)
    (max_frequency : Option ℚ) (method : String) (window : Option ℚ)
    (nfreqbin : Option ℕ) (overlap : Option ℤ) :
    Except PyErr (List ℚ × List ℚ × List (List ℚ)) :=
  let minf := if min_frequency = 0 then 1 / 25 else min_frequency
  let maxf : ℚ :=
    match max_frequency with
    | none => ((sampling_rate / 2 : ℕ) : ℚ)
    | some m => m
  if pyLower method = "stft" then
    let nperseg : ℕ :=
      match window with
      | some w => (nperseg_window w sampling_rate).toNat
      | none => (nperseg_default minf sampling_rate).toNat
    short_term_ft colaCheck spectro signal sampling_rate minf maxf overlap nperseg
  else if pyLower method = "cwt" ∨ pyLower method = "wavelet" then
    Except.ok (continuous_wt cwtPrim signal sampling_rate minf maxf none)
  else Except.error PyErr.nameError

/-- Division of a window by its maximum (`window /= max(window)`). -/
def normalizeByMax (w : List ℚ) : List ℚ := w.map fun x => x / (w.foldr max 0)

/-- Lines 246-256: `scipy.signal.hamming` is taken as-is and
`scipy.signal.gaussian` (whose standard deviation
`L / (6 * sqrt(2 * ln 2))` is irrational and is folded into the abstract
collaborator) is normalised by its maximum; any other method name leaves
the window variables unassigned, so line 259 raises, modelled as
`PyErr.nameError`. -/
def buildWindow (hammingW gaussianW : ℕ → List ℚ) (window_method : String)
    (len : ℕ) : Except PyErr (List ℚ) :=
  if window_method = "hamming" then Except.ok (hammingW len)
  else if window_method = "gaussian" then Except.ok (normalizeByMax (gaussianW len))
  else Except.error PyErr.nameError

/-- Line 302: `np.round(N / 2.0)` with numpy's round-half-to-even rule. -/
def roundHalf (N : ℕ) : ℕ :=
  if N % 2 = 0 then N / 2
  else if (N / 2) % 2 = 0 then N / 2 else N / 2 + 1

/-- Lines 271-274: the maximal usable frequency lag at time `t`, the
minimum of the forward/backward time-window reach, half the signal length
(rounded, minus one) and the frequency-window midpoint. -/
def tauMax (N midpt_time midpt_freq t : ℕ) : ℤ :=
  min (min ((t : ℤ) + midpt_time - 1) ((N : ℤ) - t + midpt_time))
    (min ((roundHalf N : ℤ) - 1) (midpt_freq : ℤ))

/-- Lines 276-278 and 287-289: the active lag range at time `t` and
frequency lag `m`, `np.arange(-min(midpt_time, N-t-m), min(midpt_time, t-m-1) + 1)`
(the zero-frequency row uses `m = 0`). -/
def lagTaus (midpt_time N t m : ℕ) : List ℤ :=
  intRange (-(min (midpt_time : ℤ) ((N : ℤ) - t - m)))
    (min (midpt_time : ℤ) ((t : ℤ) - m - 1) + 1)

/-- Lines 280-281 and 290-292: time-window values at `midpt_time + tau`,
re-normalised to unit sum over the active lag range. -/
def g2of (tw : List ℚ) (midpt_time : ℕ) (taus : List ℤ) : List ℚ :=
  let g := taus.map fun tau => pyGet tw 0 ((midpt_time : ℤ) + tau)
  g.map fun x => x / g.sum

/-- Weighted correlation sum `np.sum(g2 * signal[p1] * conj(signal[p2]))`
over the active lag range with index maps `p1`, `p2`. -/
def corrSum (sig : List CQ) (g2 : List ℚ) (taus : List ℤ) (p1 p2 : ℤ → ℤ) : CQ :=
  CQ.sum ((g2.zip taus).map fun wt =>
    CQ.smul wt.1
      (CQ.mul (pyGet sig CQ.zero (p1 wt.2)) (CQ.conj (pyGet sig CQ.zero (p2 wt.2)))))

/-- Line 284, the zero-frequency row: time-smoothed instantaneous power at
`t`, both signal factors taken at `t - tau - 1`. -/
def zeroLagTerm (tw : List ℚ) (midpt_time : ℕ) (sig : List CQ) (N t : ℕ) : CQ :=
  let taus := lagTaus midpt_time N t 0
  corrSum sig (g2of tw midpt_time taus) taus
    (fun tau => (t : ℤ) - tau - 1) (fun tau => (t : ℤ) - tau - 1)

/-- Lines 293-297: the positive-half value written to row `m + 1`. -/
def posHalfTerm (tw fw : List ℚ) (midpt_time midpt_freq : ℕ) (sig : List CQ)
    (N t m : ℕ) : CQ :=
  let taus := lagTaus midpt_time N t m
  CQ.smul (pyGet fw 0 ((midpt_freq : ℤ) + m + 1))
    (corrSum sig (g2of tw midpt_time taus) taus
      (fun tau => (t : ℤ) + m - tau - 1) (fun tau => (t : ℤ) - m - tau - 1))

/-- Lines 298-300: the negative-half value written to row `nfreqbin - m - 1`. -/
def negHalfTerm (tw fw : List ℚ) (midpt_time midpt_freq : ℕ) (sig : List CQ)
    (N t m : ℕ) : CQ :=
  let taus := lagTaus midpt_time N t m
  CQ.smul (pyGet fw 0 ((midpt_freq : ℤ) - m + 1))
    (corrSum sig (g2of tw midpt_time taus) taus
      (fun tau => (t : ℤ) - m - tau - 1) (fun tau => (t : ℤ) + m - tau - 1))

/-- Lines 302-317: the Nyquist-adjacent write at row `m = np.round(N/2)`,
performed only when `t ≤ N - m`, `t ≥ m + 1` and `m ≤ midpt_freq`; its
time points carry the extra `+ 1` of line 308 and its signal points lack
the `- 1` of the main loop (lines 311-312). -/
def nyquistWrites (N midpt_time midpt_freq : ℕ) (tw fw : List ℚ)
    (sig : List CQ) (t : ℕ) : List (ℤ × CQ) :=
  let m := roundHalf N
  if (t : ℤ) ≤ (N : ℤ) - m ∧ (m : ℤ) + 1 ≤ (t : ℤ) ∧ m ≤ midpt_freq then
    let taus := intRange (-(min (midpt_time : ℤ) ((N : ℤ) - t - m)))
      (min (midpt_time : ℤ) ((t : ℤ) - 1 - m) + 1)
    let g := taus.map fun tau => pyGet tw 0 ((midpt_time : ℤ) + tau + 1)
    let g2 := g.map fun x => x / g.sum
    let x := CQ.smul (pyGet fw 0 ((midpt_freq : ℤ) + m + 1))
      (corrSum sig g2 taus (fun tau => (t : ℤ) + m - tau) (fun tau => (t : ℤ) - m - tau))
    let y := CQ.smul (pyGet fw 0 ((midpt_freq : ℤ) - m + 1))
      (corrSum sig g2 taus (fun tau => (t : ℤ) - m - tau) (fun tau => (t : ℤ) + m - tau))
    [((m : ℤ), CQ.smul (1 / 2) (CQ.add x y))]
  else []

/-- Lines 269-317: the ordered list of writes `(row, value)` into column
`i` of `pwvd` for the time instant `t`: first the zero-frequency row, then
rows `m + 1` and `nfreqbin - m - 1` for each `m` in `range(int(tau_max))`,
then the conditional Nyquist-adjacent write. -/
def columnWrites (N nfreqbin midpt_time midpt_freq : ℕ) (tw fw : List ℚ)
    (sig : List CQ) (t : ℕ) : List (ℤ × CQ) :=
  (((0 : ℤ), zeroLagTerm tw midpt_time sig N t) ::
    (List.range (tauMax N midpt_time midpt_freq t).toNat).flatMap fun m =>
      [((m : ℤ) + 1, posHalfTerm tw fw midpt_time midpt_freq sig N t m),
       ((nfreqbin : ℤ) - m - 1, negHalfTerm tw fw midpt_time midpt_freq sig N t m)]) ++
  nyquistWrites N midpt_time midpt_freq tw fw sig t

/-- Application of a list of writes to a column, in order. -/
def applyWrites (col : List CQ) (writes : List (ℤ × CQ)) : List CQ :=
  writes.foldl (fun c w => pySet c w.1 w.2) col

/-- Line 265: `frequency_array = 0.5 * np.arange(nfreqbin) / N` — normalised
units, independent of the sampling rate. -/
def freqArray (nfreqbin N : ℕ) : List ℚ :=
  (List.range nfreqbin).map fun (k : ℕ) => 1 / 2 * (k : ℚ) / N

/-- Line 263: `time_array = np.arange(0, N, segment_step)` — sample
indices, not seconds. -/
def timeArray (segment_step N : ℕ) : List ℕ :=
  (List.range ((N + segment_step - 1) / segment_step)).map fun k => k * segment_step

/-- Lines 176-323, `smooth_pseudo_wvd`: the full pipeline.  `sampling_rate`
enters only the unused `sample_spacing` of line 210.  The output matrix is
represented as its list of columns (numpy stores it as rows of a
`(nfreqbin, len(time_array))` array); each column receives the kernel
writes in source order and is then Fourier-transformed (line 319, the
transform along the frequency axis of each column) and its real part
taken. -/
def smooth_pseudo_wvd
    (fft ifft detrend hilbert : List CQ → List CQ)
    (hammingW gaussianW : ℕ → List ℚ)
    (signal : List ℚ) (sampling_rate : ℕ)
    (freq_length time_length : Option PyObj) (segment_step : ℕ)
    (nfreqbin : Option ℕ) (window_method : String) :
    Except PyErr (List ℚ × List ℕ × List (List ℚ)) := do
  let N := signal.length
  let _sample_spacing : ℚ := 1 / (sampling_rate : ℚ)
  let nfb := nfreqbin.getD 300
  let analytic := analytic_signal_code fft ifft detrend hilbert signal
  let fl ← validateWindowLength freq_length N 4 freqOddMsg
  let tl ← validateWindowLength time_length N 10 timeOddMsg
  let flen ← pyToNat fl
  let freq_window ← buildWindow hammingW gaussianW window_method flen
  let tlen ← pyToNat tl
  let time_window ← buildWindow hammingW gaussianW window_method tlen
  let midpt_freq := (freq_window.length - 1) / 2
  let midpt_time := (time_window.length - 1) / 2
  let tArr := timeArray segment_step N
  let pwvd := tArr.map fun t =>
    (fft (applyWrites (List.replicate nfb CQ.zero)
      (columnWrites N nfb midpt_time midpt_freq time_window freq_window analytic t))).map
      CQ.re
  pure (freqArray nfb N, tArr, pwvd)

/-- Projection of the frequency axis out of a wrapper result (the empty
list for an error). -/
def exceptFreqs (e : Except PyErr (List ℚ × List ℚ × List (List ℚ))) : List ℚ :=
  match e with
  | Except.ok r => r.1
  | Except.error _ => []

/-- Transcription of the specification's zero-lag row (spec §4.3 step 2 and
§8): the weighted sum, over the active lag range, of the squared magnitude
of the analytic signal at `t - tau - 1`, the weights being the time-window
values re-normalised to unit sum over that range — a real (rational)
quantity. -/
def zero_lag_power (tw : List ℚ) (midpt_time : ℕ) (sig : List CQ) (N t : ℕ) : ℚ :=
  let taus := lagTaus midpt_time N t 0
  let g := taus.map fun tau => pyGet tw 0 ((midpt_time : ℤ) + tau)
  (taus.map fun tau =>
      pyGet tw 0 ((midpt_time : ℤ) + tau) / g.sum *
        CQ.normSq (pyGet sig CQ.zero ((t : ℤ) - tau - 1))).sum

theorem mapFrom_mapFrom {α : Type} (f g : ℕ → α → α) (i : ℕ) (xs : List α) :
    mapFrom g i (mapFrom f i xs) = mapFrom (fun k x => g k (f k x)) i xs := by
  induction xs generalizing i with
  | nil => rfl
  | cons x xs ih => simp [mapFrom, ih]

theorem getD_nonneg (tw : List ℚ) (hw : ∀ w ∈ tw, 0 ≤ w) (n : ℕ) :
    0 ≤ tw.getD n 0 := by
  rcases h : tw[n]? with _ | a
  · simp [List.getD, h]
  · have := List.getElem?_mem h
    simpa [List.getD, h] using hw a this

theorem pyGet_nonneg (tw : List ℚ) (hw : ∀ w ∈ tw, 0 ≤ w) (i : ℤ) :
    0 ≤ pyGet tw 0 i := by
  unfold pyGet
  split <;> exact getD_nonneg tw hw _

theorem lt_ceilDiv_iff (k step N : ℕ) (h : 0 < step) :
    k < (N + step - 1) / step ↔ k * step < N := by
  rw [Nat.lt_iff_add_one_le, Nat.le_div_iff_mul_le h, Nat.add_mul, Nat.one_mul]
  omega

/-- C6: for every signal length `N`, the default window derivation yields
frequency length `⌊N/4⌋` (plus one if even) and time length `⌊N/10⌋`
(plus one if even), and both defaults are odd. -/
theorem c6_default_window_lengths_odd (N : ℕ) :
    ∃ fl tl,
      resolveWindowLength none N 4 freqOddMsg = Except.ok fl ∧
      resolveWindowLength none N 10 timeOddMsg = Except.ok tl ∧
      fl = (if N / 4 % 2 = 0 then N / 4 + 1 else N / 4) ∧
      tl = (if N / 10 % 2 = 0 then N / 10 + 1 else N / 10) ∧
      Odd fl ∧ Odd tl := by
  refine ⟨_, _, rfl, rfl, rfl, rfl, ?_, ?_⟩ <;>
    · rw [Nat.odd_iff]
      split <;> omega

/-- C3: an explicitly supplied scalar window length — the natural way to
request an even (or odd) length — makes `smooth_pseudo_wvd` raise
`TypeError` (Python `len()` applied to an integer), not the odd-length
`ValueError` the spec promises: the even-length check `len(arg) % 2 == 0`
is unreachable for scalar arguments. -/
theorem c3_scalar_window_length_raises_typeerror :
    (∀ (fft ifft detrend hilbert : List CQ → List CQ)
        (hammingW gaussianW : ℕ → List ℚ) (signal : List ℚ)
        (rate : ℕ) (n : ℤ) (step : ℕ) (nfb : Option ℕ) (wm : String),
        smooth_pseudo_wvd fft ifft detrend hilbert hammingW gaussianW signal rate
            (some (PyObj.int n)) none step nfb wm =
          Except.error PyErr.typeError) ∧
    (∀ (fft ifft detrend hilbert : List CQ → List CQ)
        (hammingW gaussianW : ℕ → List ℚ) (signal : List ℚ)
        (rate : ℕ) (n : ℤ) (step : ℕ) (nfb : Option ℕ) (wm : String),
        smooth_pseudo_wvd fft ifft detrend hilbert hammingW gaussianW signal rate
            none (some (PyObj.int n)) step nfb wm =
          Except.error PyErr.typeError) ∧
    Except.error (α := List ℚ × List ℕ × List (List ℚ)) PyErr.typeError ≠
      Except.error (PyErr.valueError freqOddMsg) ∧
    Except.error (α := List ℚ × List ℕ × List (List ℚ)) PyErr.typeError ≠
      Except.error (PyErr.valueError timeOddMsg) := by
  refine ⟨fun _ _ _ _ _ _ _ _ _ _ _ _ => rfl, fun _ _ _ _ _ _ _ _ _ _ _ _ => rfl, ?_, ?_⟩ <;>
    · intro h
      exact PyErr.noConfusion (Except.error.inj h)

/-- C5: the analytic-signal construction of lines 214-227 performs, in
order, exactly the steps the spec lists — zero-pad to 2N, forward
transform, double over `[1, N-1)`, zero from index N on, inverse
transform, zero the tail from index N on, detrend, Hilbert — for every
input signal and any transform/detrend/Hilbert collaborators. -/
theorem c5_analytic_signal_code_eq_spec
    (fft ifft detrend hilbert : List CQ → List CQ) (signal : List ℚ) :
    analytic_signal_code fft ifft detrend hilbert signal =
      analytic_signal_spec fft ifft detrend hilbert signal := by
  simp only [analytic_signal_code, analytic_signal_spec, mapWithIdx, mapFrom_mapFrom]

/-- C8: a user-supplied overlap that fails the COLA check makes
`short_term_ft` return the COLA `ValueError` — no spectrogram output is
produced, whatever the spectrogram collaborator would return — and when
no overlap is supplied the COLA predicate is never consulted (the result
does not depend on it). -/
theorem c8_cola_violation_fails_fast :
    (∀ (colaCheck : ℕ → ℤ → Bool)
        (spectro : List ℚ → ℕ → ℕ → Option ℤ → List ℚ × List (List ℚ))
        (sig : List ℚ) (rate : ℕ) (minf maxf : ℚ) (o : ℤ) (nperseg : ℕ),
        colaCheck nperseg o = false →
        short_term_ft colaCheck spectro sig rate minf maxf (some o) nperseg =
          Except.error (PyErr.valueError colaMsg)) ∧
    (∀ (c₁ c₂ : ℕ → ℤ → Bool)
        (spectro : List ℚ → ℕ → ℕ → Option ℤ → List ℚ × List (List ℚ))
        (sig : List ℚ) (rate : ℕ) (minf maxf : ℚ) (nperseg : ℕ),
        short_term_ft c₁ spectro sig rate minf maxf none nperseg =
          short_term_ft c₂ spectro sig rate minf maxf none nperseg) := by
  constructor
  · intro colaCheck spectro sig rate minf maxf o nperseg h
    simp [short_term_ft, h]
  · intro c₁ c₂ spectro sig rate minf maxf nperseg
    rfl

/-- Witness for C8 at a concrete violating overlap. -/
theorem c8_cola_violation_fails_fast_witness :
    (fun _ _ => false : ℕ → ℤ → Bool) 5000 2500 = false ∧
    short_term_ft (fun _ _ => false) (fun _ _ _ _ => ([], [])) [] 100 (1 / 25) 50
        (some 2500) 5000 =
      Except.error (PyErr.valueError colaMsg) :=
  ⟨rfl, c8_cola_violation_fails_fast.1 (fun _ _ => false) (fun _ _ _ _ => ([], []))
    [] 100 (1 / 25) 50 2500 5000 rfl⟩

/-- C10: the dispatcher's cwt/wavelet path ignores the caller's `nfreqbin`
— any two values give identical results — and the returned frequency axis
always has `sampling_rate // 2` points. -/
theorem c10_cwt_path_ignores_nfreqbin :
    (∀ (colaCheck : ℕ → ℤ → Bool)
        (spectro : List ℚ → ℕ → ℕ → Option ℤ → List ℚ × List (List ℚ))
        (cwtPrim : List ℚ → List ℚ → ℕ → List (List ℚ))
        (sig : List ℚ) (rate : ℕ) (minf : ℚ) (maxf : Option ℚ)
        (win : Option ℚ) (ov : Option ℤ) (nb₁ nb₂ : Option ℕ),
        signal_timefrequency colaCheck spectro cwtPrim sig rate minf maxf
            "cwt" win nb₁ ov =
          signal_timefrequency colaCheck spectro cwtPrim sig rate minf maxf
            "cwt" win nb₂ ov) ∧
    (∀ (colaCheck : ℕ → ℤ → Bool)
        (spectro : List ℚ → ℕ → ℕ → Option ℤ → List ℚ × List (List ℚ))
        (cwtPrim : List ℚ → List ℚ → ℕ → List (List ℚ))
        (sig : List ℚ) (rate : ℕ) (minf : ℚ) (maxf : Option ℚ)
        (win : Option ℚ) (ov : Option ℤ) (nb₁ nb₂ : Option ℕ),
        signal_timefrequency colaCheck spectro cwtPrim sig rate minf maxf
            "wavelet" win nb₁ ov =
          signal_timefrequency colaCheck spectro cwtPrim sig rate minf maxf
            "wavelet" win nb₂ ov) ∧
    (∀ (colaCheck : ℕ → ℤ → Bool)
        (spectro : List ℚ → ℕ → ℕ → Option ℤ → List ℚ × List (List ℚ))
        (cwtPrim : List ℚ → List ℚ → ℕ → List (List ℚ))
        (sig : List ℚ) (rate : ℕ) (minf : ℚ) (maxf : Option ℚ)
        (win : Option ℚ) (ov : Option ℤ) (nb : Option ℕ),
        (exceptFreqs (signal_timefrequency colaCheck spectro cwtPrim sig rate
            minf maxf "cwt" win nb ov)).length = rate / 2) ∧
    (∀ (colaCheck : ℕ → ℤ → Bool)
        (spectro : List ℚ → ℕ → ℕ → Option ℤ → List ℚ × List (List ℚ))
        (cwtPrim : List ℚ → List ℚ → ℕ → List (List ℚ))
        (sig : List ℚ) (rate : ℕ) (minf : ℚ) (maxf : Option ℚ)
        (win : Option ℚ) (ov : Option ℤ) (nb : Option ℕ),
        (exceptFreqs (signal_timefrequency colaCheck spectro cwtPrim sig rate
            minf maxf "wavelet" win nb ov)).length = rate / 2) := by
  refine ⟨fun _ _ _ _ _ _ _ _ _ _ _ => rfl, fun _ _ _ _ _ _ _ _ _ _ _ => rfl, ?_, ?_⟩ <;>
    · intro colaCheck spectro cwtPrim sig rate minf maxf win ov nb
      simp only [signal_timefrequency]
      rw [if_neg (by decide), if_pos (by decide)]
      simp only [exceptFreqs, continuous_wt, Option.getD_none, linspace,
        List.length_map, List.length_range]

theorem CQ.sum_nil : CQ.sum [] = CQ.zero := rfl

theorem CQ.sum_cons (x : CQ) (l : List CQ) : CQ.sum (x :: l) = CQ.add x (CQ.sum l) := rfl

theorem CQ.add_re (x y : CQ) : (CQ.add x y).re = x.re + y.re := rfl

theorem CQ.add_im (x y : CQ) : (CQ.add x y).im = x.im + y.im := rfl

theorem CQ.smul_re (q : ℚ) (x : CQ) : (CQ.smul q x).re = q * x.re := rfl

theorem CQ.smul_im (q : ℚ) (x : CQ) : (CQ.smul q x).im = q * x.im := rfl

theorem CQ.mul_re (x y : CQ) : (CQ.mul x y).re = x.re * y.re - x.im * y.im := rfl

theorem CQ.mul_im (x y : CQ) : (CQ.mul x y).im = x.re * y.im + x.im * y.re := rfl

theorem CQ.conj_re (x : CQ) : (CQ.conj x).re = x.re := rfl

theorem CQ.conj_im (x : CQ) : (CQ.conj x).im = -x.im := rfl

theorem corrSum_diag (sig : List CQ) (p : ℤ → ℤ) (w : ℤ → ℚ) (taus : List ℤ) :
    (corrSum sig (taus.map w) taus p p).re =
      (taus.map fun tau => w tau * CQ.normSq (pyGet sig CQ.zero (p tau))).sum ∧
    (corrSum sig (taus.map w) taus p p).im = 0 := by
  induction taus with
  | nil => simp [corrSum, CQ.sum, CQ.zero]
  | cons tau ts ih =>
      have h1 := ih.1
      have h2 := ih.2
      simp only [corrSum] at h1 h2
      simp only [corrSum, List.map_cons, List.zip_cons_cons, CQ.sum_cons, List.sum_cons]
      constructor
      · rw [CQ.add_re, h1, CQ.smul_re, CQ.mul_re, CQ.conj_re, CQ.conj_im, CQ.normSq]
        ring
      · rw [CQ.add_im, h2, CQ.smul_im, CQ.mul_im, CQ.conj_re, CQ.conj_im]
        ring

theorem g2of_eq_map (tw : List ℚ) (midt : ℕ) (taus : List ℤ) :
    g2of tw midt taus = taus.map fun tau =>
      pyGet tw 0 ((midt : ℤ) + tau) /
        ((taus.map fun tau => pyGet tw 0 ((midt : ℤ) + tau)).sum) := by
  simp [g2of, List.map_map]

theorem linspace_bounds (a b : ℚ) (n : ℕ) (hab : a ≤ b) :
    ∀ x ∈ linspace a b n, a ≤ x ∧ x ≤ b := by
  intro x hx
  simp only [linspace, List.mem_map, List.mem_range] at hx
  obtain ⟨k, hk, rfl⟩ := hx
  rcases Nat.lt_or_ge n 2 with hn | hn
  · interval_cases n <;> simp_all <;> constructor <;> simp [hab]
  · have hpos : (0 : ℚ) < (n : ℚ) - 1 := by
      have : (2 : ℚ) ≤ (n : ℚ) := by exact_mod_cast hn
      linarith
    have hk1 : (k : ℚ) ≤ (n : ℚ) - 1 := by
      have : (k : ℚ) + 1 ≤ (n : ℚ) := by exact_mod_cast hk
      linarith
    constructor
    · have h0 : 0 ≤ b - a := by linarith
      have : 0 ≤ (b - a) * (k : ℚ) / ((n : ℚ) - 1) :=
        div_nonneg (mul_nonneg h0 (Nat.cast_nonneg k)) hpos.le
      linarith
    · have h0 : 0 ≤ b - a := by linarith
      have hstep : (b - a) * (k : ℚ) / ((n : ℚ) - 1) ≤ b - a := by
        rw [div_le_iff₀ hpos]
        exact mul_le_mul_of_nonneg_left hk1 h0
      linarith

theorem spectrogramFreqs_bounds (fs M : ℕ) :
    ∀ x ∈ spectrogramFreqs fs M, 0 ≤ x ∧ 2 * x ≤ (fs : ℚ) := by
  intro x hx
  simp only [spectrogramFreqs, List.mem_map, List.mem_range] at hx
  obtain ⟨k, hk, rfl⟩ := hx
  rcases Nat.eq_zero_or_pos M with hM | hM
  · subst hM
    have hk0 : k = 0 := by omega
    subst hk0
    constructor <;> norm_num
  · have hMq : (0 : ℚ) < (M : ℚ) := by exact_mod_cast hM
    have hM0 : (M : ℚ) ≠ 0 := ne_of_gt hMq
    constructor
    · positivity
    · have h2k : 2 * k ≤ M := by
        have hk2 : k ≤ M / 2 := Nat.lt_succ_iff.mp hk
        omega
      have h2kq : (2 * (k : ℚ)) ≤ (M : ℚ) := by exact_mod_cast h2k
      have hfs : (0 : ℚ) ≤ (fs : ℚ) := Nat.cast_nonneg fs
      calc 2 * ((k : ℚ) * (fs : ℚ) / (M : ℚ))
          = (2 * (k : ℚ)) * ((fs : ℚ) / (M : ℚ)) := by ring
        _ ≤ (M : ℚ) * ((fs : ℚ) / (M : ℚ)) :=
            mul_le_mul_of_nonneg_right h2kq (by positivity)
        _ = (fs : ℚ) := by field_simp

theorem spectrogramFreqs_zero_mem (fs M : ℕ) : (0 : ℚ) ∈ spectrogramFreqs fs M := by
  simp only [spectrogramFreqs, List.mem_map, List.mem_range]
  exact ⟨0, Nat.succ_pos _, by simp⟩

theorem pyInt_eq_floor (q : ℚ) (h : 0 ≤ q) : pyInt q = Int.floor q := by
  unfold pyInt
  rw [Rat.floor_def]
  exact Int.tdiv_eq_ediv (Rat.num_nonneg.2 h) (by positivity)

theorem pyInt_natCast (n : ℕ) : pyInt ((n : ℕ) : ℚ) = (n : ℤ) := by
  simp [pyInt, Rat.num_natCast, Rat.den_natCast]

theorem nperseg_default_at_lf100 : nperseg_default (1 / 25) 100 = 5000 := by
  have h : (2 / ((1 : ℚ) / 25) * ((100 : ℕ) : ℚ)) = ((5000 : ℕ) : ℚ) := by norm_num
  rw [nperseg_default, h, pyInt_natCast]
  norm_num

/-- C4 counterexample: with the default minimum frequency 0.04 Hz and a
100 Hz sampling rate, the default STFT segment is 5000 samples, i.e.
50 seconds, which contains exactly 2 cycles of the 0.04 Hz wave — not at
least 5 as claimed. -/
theorem c4_counterexample_two_cycles_not_five :
    nperseg_default (1 / 25) 100 = 5000 ∧
    (5000 : ℚ) / 100 * (1 / 25) = 2 ∧
    ¬ (5 : ℚ) ≤ (5000 : ℚ) / 100 * (1 / 25) := by
  refine ⟨nperseg_default_at_lf100, by norm_num, by norm_num⟩

/-- C4 amended: the explicit-window segment length is
`int(window * sampling_rate)` (exactly `window * sampling_rate` for a
whole-second duration); the default segment length is
`int((2 / min_frequency) * sampling_rate)`, and the number of cycles of
the slowest frequency it captures lies in
`(2 - min_frequency / rate, 2]` — about two cycles, not at least five. -/
theorem c4_amended_segment_lengths (w rate : ℕ) (minf : ℚ)
    (hf : 0 < minf) (hr : 0 < rate) :
    nperseg_window ((w : ℕ) : ℚ) rate = (w : ℤ) * rate ∧
    nperseg_default minf rate = Int.floor (2 / minf * rate) ∧
    ((nperseg_default minf rate : ℤ) : ℚ) * minf / rate ≤ 2 ∧
    2 - minf / rate < ((nperseg_default minf rate : ℤ) : ℚ) * minf / rate := by
  have hq : (0 : ℚ) < (rate : ℚ) := by exact_mod_cast hr
  have hx : (0 : ℚ) ≤ 2 / minf * rate := by positivity
  have hfloor : nperseg_default minf rate = Int.floor (2 / minf * rate) := by
    rw [nperseg_default, pyInt_eq_floor _ hx]
  have hXm : 2 / minf * (rate : ℚ) * minf = 2 * rate := by
    field_simp
  refine ⟨?_, hfloor, ?_, ?_⟩
  · have h1 : ((w : ℚ) * rate) = ((w * rate : ℕ) : ℚ) := by push_cast; ring
    rw [nperseg_window, h1, pyInt_natCast]
    push_cast
    ring
  · rw [hfloor, div_le_iff hq]
    have h2 : ((Int.floor (2 / minf * (rate : ℚ)) : ℤ) : ℚ) ≤ 2 / minf * rate :=
      Int.floor_le _
    calc ((Int.floor (2 / minf * (rate : ℚ)) : ℤ) : ℚ) * minf
        ≤ 2 / minf * rate * minf := mul_le_mul_of_nonneg_right h2 hf.le
      _ = 2 * rate := hXm
  · rw [hfloor, lt_div_iff hq]
    have h3 : 2 / minf * (rate : ℚ) - 1 < ((Int.floor (2 / minf * (rate : ℚ)) : ℤ) : ℚ) :=
      Int.sub_one_lt_floor _
    have h4 : (2 / minf * (rate : ℚ) - 1) * minf <
        ((Int.floor (2 / minf * (rate : ℚ)) : ℤ) : ℚ) * minf :=
      mul_lt_mul_of_pos_right h3 hf
    have h5 : (2 / minf * (rate : ℚ) - 1) * minf = 2 * rate - minf := by
      rw [sub_mul, hXm, one_mul]
    have h6 : (2 - minf / (rate : ℚ)) * rate = 2 * rate - minf := by
      field_simp
    linarith
/-- Witness for C4 amended at `min_frequency = 0.04`, sampling rate 100. -/
theorem c4_amended_segment_lengths_witness :
    (0 : ℚ) < 1 / 25 ∧ (0 : ℕ) < 100 ∧
    nperseg_default (1 / 25) 100 = Int.floor (2 / (1 / 25) * ((100 : ℕ) : ℚ)) :=
  ⟨by norm_num, by norm_num,
    (c4_amended_segment_lengths 3 100 (1 / 25) (by norm_num) (by norm_num)).2.1⟩

/-- C2 counterexample: with sampling rate 100 and default bounds, the stft
path of the dispatcher returns the full spectrogram axis, which contains
0 Hz — below the claimed 0.04 Hz minimum (concrete input signal
`[0, 0, 0, 0]`; the requested bounds affect only the plot). -/
theorem c2_counterexample_stft_axis_contains_zero :
    (0 : ℚ) ∈ exceptFreqs (signal_timefrequency (fun _ _ => true)
      (fun _ _ _ _ => ([], [])) (fun _ _ _ => [])
      [0, 0, 0, 0] 100 (1 / 25) none "stft" none none none) ∧
    ¬ (1 / 25 : ℚ) ≤ (0 : ℚ) := by
  constructor
  · simp only [signal_timefrequency]
    rw [if_pos (by decide)]
    simp only [short_term_ft, exceptFreqs]
    exact spectrogramFreqs_zero_mem 100 _
  · norm_num

/-- C2 amended: with sampling rate 100 and default bounds the cwt path
returns `linspace(0.04, 50, 50)` — the zero minimum is sanitized to
0.04 Hz and the absent maximum to the Nyquist 50 Hz — and all its entries
lie within [0.04, 50]; the stft path instead returns the full spectrogram
axis, whose entries lie within [0, 50] and which always contains 0 Hz. -/
theorem c2_amended_frequency_axis_bounds :
    (∀ (colaCheck : ℕ → ℤ → Bool)
        (spectro : List ℚ → ℕ → ℕ → Option ℤ → List ℚ × List (List ℚ))
        (cwtPrim : List ℚ → List ℚ → ℕ → List (List ℚ))
        (sig : List ℚ) (win : Option ℚ) (nb : Option ℕ) (ov : Option ℤ),
        exceptFreqs (signal_timefrequency colaCheck spectro cwtPrim sig 100 (1 / 25)
            none "cwt" win nb ov) = linspace (1 / 25) 50 50) ∧
    (∀ (colaCheck : ℕ → ℤ → Bool)
        (spectro : List ℚ → ℕ → ℕ → Option ℤ → List ℚ × List (List ℚ))
        (cwtPrim : List ℚ → List ℚ → ℕ → List (List ℚ))
        (sig : List ℚ) (win : Option ℚ) (nb : Option ℕ) (ov : Option ℤ),
        exceptFreqs (signal_timefrequency colaCheck spectro cwtPrim sig 100 0
            none "cwt" win nb ov) = linspace (1 / 25) 50 50) ∧
    (∀ x ∈ linspace (1 / 25) 50 50, (1 / 25 : ℚ) ≤ x ∧ x ≤ 50) ∧
    (∀ (colaCheck : ℕ → ℤ → Bool)
        (spectro : List ℚ → ℕ → ℕ → Option ℤ → List ℚ × List (List ℚ))
        (cwtPrim : List ℚ → List ℚ → ℕ → List (List ℚ))
        (sig : List ℚ) (win : Option ℚ) (nb : Option ℕ) (x : ℚ),
        x ∈ exceptFreqs (signal_timefrequency colaCheck spectro cwtPrim sig 100 (1 / 25)
            none "stft" win nb none) → 0 ≤ x ∧ x ≤ 50) ∧
    (∀ (colaCheck : ℕ → ℤ → Bool)
        (spectro : List ℚ → ℕ → ℕ → Option ℤ → List ℚ × List (List ℚ))
        (cwtPrim : List ℚ → List ℚ → ℕ → List (List ℚ))
        (sig : List ℚ) (win : Option ℚ) (nb : Option ℕ),
        (0 : ℚ) ∈ exceptFreqs (signal_timefrequency colaCheck spectro cwtPrim sig 100 (1 / 25)
            none "stft" win nb none)) := by
  refine ⟨?_, ?_, ?_, ?_, ?_⟩
  · intro colaCheck spectro cwtPrim sig win nb ov
    simp only [signal_timefrequency]
    rw [if_neg (by decide), if_pos (by decide)]
    simp only [exceptFreqs, continuous_wt, Option.getD_none]
    rw [if_neg (by norm_num)]
    norm_num
  · intro colaCheck spectro cwtPrim sig win nb ov
    simp only [signal_timefrequency]
    rw [if_neg (by decide), if_pos (by decide)]
    simp only [exceptFreqs, continuous_wt, Option.getD_none]
    norm_num
  · exact linspace_bounds (1 / 25) 50 50 (by norm_num)
  · intro colaCheck spectro cwtPrim sig win nb x hx
    simp only [signal_timefrequency] at hx
    rw [if_pos (by decide)] at hx
    simp only [short_term_ft, exceptFreqs] at hx
    obtain ⟨h0, h2⟩ := spectrogramFreqs_bounds 100 _ x hx
    refine ⟨h0, ?_⟩
    push_cast at h2
    linarith
  · intro colaCheck spectro cwtPrim sig win nb
    simp only [signal_timefrequency]
    rw [if_pos (by decide)]
    simp only [short_term_ft, exceptFreqs]
    exact spectrogramFreqs_zero_mem 100 _

/-- Witness for C2 amended at concrete inputs on both branches. -/
theorem c2_amended_frequency_axis_bounds_witness :
    (1 / 25 : ℚ) ∈ linspace (1 / 25) 50 50 ∧
    ((1 / 25 : ℚ) ≤ 1 / 25 ∧ (1 / 25 : ℚ) ≤ 50) ∧
    (0 : ℚ) ∈ exceptFreqs (signal_timefrequency (fun _ _ => true)
        (fun _ _ _ _ => ([], [])) (fun _ _ _ => [])
        [0, 0, 0, 1] 100 (1 / 25) none "stft" none none none) ∧
    ((0 : ℚ) ≤ 0 ∧ (0 : ℚ) ≤ 50) := by
  have hm : (1 / 25 : ℚ) ∈ linspace (1 / 25) 50 50 := by
    simp only [linspace, List.mem_map, List.mem_range]
    exact ⟨0, by norm_num, by norm_num⟩
  have hm0 := c2_amended_frequency_axis_bounds.2.2.2.2 (fun _ _ => true)
    (fun _ _ _ _ => ([], [])) (fun _ _ _ => []) [0, 0, 0, 1] none none
  exact ⟨hm, c2_amended_frequency_axis_bounds.2.2.1 (1 / 25) hm, hm0,
    c2_amended_frequency_axis_bounds.2.2.2.1 (fun _ _ => true)
      (fun _ _ _ _ => ([], [])) (fun _ _ _ => []) [0, 0, 0, 1] none none 0 hm0⟩

/-- C7: in every kernel column the first write targets row 0 and its value
is the time-smoothed instantaneous power — the weighted sum, over the
active lag range, of squared signal magnitudes with time-window weights
re-normalised to unit sum — which is real (zero imaginary part) and
non-negative whenever the time-window values are non-negative (the
Hamming window's all are). -/
theorem c7_zero_lag_row_real_nonneg (N nfreqbin midpt_time midpt_freq t : ℕ)
    (tw fw : List ℚ) (sig : List CQ) (hw : ∀ w ∈ tw, 0 ≤ w) :
    (columnWrites N nfreqbin midpt_time midpt_freq tw fw sig t).head? =
      some ((0 : ℤ), zeroLagTerm tw midpt_time sig N t) ∧
    (zeroLagTerm tw midpt_time sig N t).re = zero_lag_power tw midpt_time sig N t ∧
    (zeroLagTerm tw midpt_time sig N t).im = 0 ∧
    0 ≤ zero_lag_power tw midpt_time sig N t := by
  refine ⟨rfl, ?_, ?_, ?_⟩
  · rw [zeroLagTerm, g2of_eq_map]
    rw [(corrSum_diag sig (fun tau => (t : ℤ) - tau - 1) _ (lagTaus midpt_time N t 0)).1]
    rfl
  · rw [zeroLagTerm, g2of_eq_map]
    exact (corrSum_diag sig (fun tau => (t : ℤ) - tau - 1) _ (lagTaus midpt_time N t 0)).2
  · unfold zero_lag_power
    apply List.sum_nonneg
    intro x hx
    simp only [List.mem_map] at hx
    obtain ⟨tau, htau, rfl⟩ := hx
    have h1 : 0 ≤ pyGet tw 0 ((midpt_time : ℤ) + tau) := pyGet_nonneg tw hw _
    have h2 : 0 ≤ ((lagTaus midpt_time N t 0).map fun tau =>
        pyGet tw 0 ((midpt_time : ℤ) + tau)).sum := by
      apply List.sum_nonneg
      intro y hy
      simp only [List.mem_map] at hy
      obtain ⟨tau2, _, rfl⟩ := hy
      exact pyGet_nonneg tw hw _
    have h3 : 0 ≤ CQ.normSq (pyGet sig CQ.zero ((t : ℤ) - tau - 1)) := by
      rw [CQ.normSq]
      exact add_nonneg (mul_self_nonneg _) (mul_self_nonneg _)
    exact mul_nonneg (div_nonneg h1 h2) h3

/-- Witness for C7 at a concrete window, signal and column. -/
theorem c7_zero_lag_row_real_nonneg_witness :
    (∀ w ∈ [(1 : ℚ), 2, 1], 0 ≤ w) ∧
    ((columnWrites 3 300 1 0 [(1 : ℚ), 2, 1] [(1 : ℚ)]
        [CQ.ofRat 1, CQ.ofRat 2, CQ.ofRat 3] 1).head? =
      some ((0 : ℤ), zeroLagTerm [(1 : ℚ), 2, 1] 1 [CQ.ofRat 1, CQ.ofRat 2, CQ.ofRat 3] 3 1) ∧
    (zeroLagTerm [(1 : ℚ), 2, 1] 1 [CQ.ofRat 1, CQ.ofRat 2, CQ.ofRat 3] 3 1).re =
      zero_lag_power [(1 : ℚ), 2, 1] 1 [CQ.ofRat 1, CQ.ofRat 2, CQ.ofRat 3] 3 1 ∧
    (zeroLagTerm [(1 : ℚ), 2, 1] 1 [CQ.ofRat 1, CQ.ofRat 2, CQ.ofRat 3] 3 1).im = 0 ∧
    0 ≤ zero_lag_power [(1 : ℚ), 2, 1] 1 [CQ.ofRat 1, CQ.ofRat 2, CQ.ofRat 3] 3 1) := by
  have hw : ∀ w ∈ [(1 : ℚ), 2, 1], 0 ≤ w := by
    intro w hmem
    fin_cases hmem <;> norm_num
  exact ⟨hw, c7_zero_lag_row_real_nonneg 3 300 1 0 1 [(1 : ℚ), 2, 1] [(1 : ℚ)]
    [CQ.ofRat 1, CQ.ofRat 2, CQ.ofRat 3] hw⟩

/-- C1 (violated, evaluated at the failing input): N = 4096 with all
defaults (`nfreqbin = 300`, `segment_step = 1`).  The default windows
resolve to lengths 1025 and 409, so the midpoints are 512 and 204; the
instant t = 2048 is sampled; there `tau_max = 512` and the main lag
loop's write list targets pwvd row 300 = nfreqbin, outside the 300-row
matrix (numpy raises `IndexError`), whatever the window contents and the
signal. -/
theorem c1_pwvd_row_write_out_of_bounds :
    resolveWindowLength none 4096 4 freqOddMsg = Except.ok 1025 ∧
    resolveWindowLength none 4096 10 timeOddMsg = Except.ok 409 ∧
    (1025 - 1) / 2 = 512 ∧ (409 - 1) / 2 = 204 ∧
    2048 ∈ timeArray 1 4096 ∧
    tauMax 4096 204 512 2048 = 512 ∧
    ∀ (tw fw : List ℚ) (sig : List CQ),
      ∃ r ∈ (columnWrites 4096 300 204 512 tw fw sig 2048).map Prod.fst,
        (300 : ℤ) ≤ r := by
  have htm : tauMax 4096 204 512 2048 = 512 := by decide
  refine ⟨rfl, rfl, rfl, rfl, ?_, htm, ?_⟩
  · simp only [timeArray, List.mem_map, List.mem_range]
    exact ⟨2048, by norm_num, by norm_num⟩
  · intro tw fw sig
    refine ⟨((299 : ℕ) : ℤ) + 1, ?_, by norm_num⟩
    apply List.mem_map.2
    refine ⟨(((299 : ℕ) : ℤ) + 1, posHalfTerm tw fw 204 512 sig 4096 2048 299), ?_, rfl⟩
    simp only [columnWrites]
    apply List.mem_append_left
    apply List.mem_cons_of_mem
    apply List.mem_flatMap.2
    refine ⟨299, ?_, ?_⟩
    · have h512 : (tauMax 4096 204 512 2048).toNat = 512 := by rw [htm]; rfl
      rw [h512]
      exact List.mem_range.2 (by norm_num)
    · exact List.mem_cons_self _ _

/-- C9: the sampling rate has no effect on `smooth_pseudo_wvd` — any two
positive rates give identical output triples (it only enters the unused
`sample_spacing`); the frequency axis is the rate-free `0.5 * k / N`
(normalised units, not Hz), and the time axis consists exactly of the
multiples of `segment_step` below `N` (sample indices, not seconds). -/
theorem c9_sampling_rate_has_no_effect :
    (∀ (fft ifft detrend hilbert : List CQ → List CQ)
        (hammingW gaussianW : ℕ → List ℚ) (signal : List ℚ)
        (r₁ r₂ : ℕ) (fl tl : Option PyObj) (step : ℕ) (nfb : Option ℕ) (wm : String),
        0 < r₁ → 0 < r₂ →
        smooth_pseudo_wvd fft ifft detrend hilbert hammingW gaussianW signal r₁
            fl tl step nfb wm =
          smooth_pseudo_wvd fft ifft detrend hilbert hammingW gaussianW signal r₂
            fl tl step nfb wm) ∧
    (∀ nfb N k, k < nfb → (freqArray nfb N)[k]? = some (1 / 2 * (k : ℚ) / N)) ∧
    (∀ step N x, x ∈ timeArray step N → step ∣ x ∧ x < N) ∧
    (∀ step N k, 0 < step → k * step < N → k * step ∈ timeArray step N) := by
  refine ⟨?_, ?_, ?_, ?_⟩
  · intro fft ifft detrend hilbert hammingW gaussianW signal r₁ r₂ fl tl step nfb wm h1 h2
    rfl
  · intro nfb N k hk
    simp [freqArray, List.getElem?_map, List.getElem?_range, hk]
  · intro step N x hx
    simp only [timeArray, List.mem_map, List.mem_range] at hx
    obtain ⟨k, hk, rfl⟩ := hx
    refine ⟨dvd_mul_left step k, ?_⟩
    rcases Nat.eq_zero_or_pos step with h0 | h0
    · subst h0
      rw [Nat.div_zero] at hk
      omega
    · exact (lt_ceilDiv_iff k step N h0).1 hk
  · intro step N k h0 hkN
    simp only [timeArray, List.mem_map, List.mem_range]
    exact ⟨k, (lt_ceilDiv_iff k step N h0).2 hkN, rfl⟩

/-- Witness for C9 at two concrete rates and a concrete stride. -/
theorem c9_sampling_rate_has_no_effect_witness :
    0 < 2 ∧ 0 < 5 ∧
    smooth_pseudo_wvd id id id id (fun _ => []) (fun _ => []) [1, 2] 2 none none
        1 none "hamming" =
      smooth_pseudo_wvd id id id id (fun _ => []) (fun _ => []) [1, 2] 5 none none
        1 none "hamming" ∧
    0 < 3 ∧ 2 * 3 < 7 ∧ 2 * 3 ∈ timeArray 3 7 := by
  refine ⟨by norm_num, by norm_num, ?_, by norm_num, by norm_num, ?_⟩
  · exact c9_sampling_rate_has_no_effect.1 id id id id (fun _ => []) (fun _ => [])
      [1, 2] 2 5 none none 1 none "hamming" (by norm_num) (by norm_num)
  · exact c9_sampling_rate_has_no_effect.2.2.2 3 7 2 (by norm_num) (by norm_num)

end NK
